import Mathlib

/-!
# Verification of the dvid-point-cloud RLE decoding and point-sampling core

Shallow embedding of `src/dvid_point_cloud/parse.py` and
`src/dvid_point_cloud/sampling.py`.

Conventions of the embedding:
* Python byte buffers are `List ℕ` (each entry a byte value).
* numpy `int32` values are `ℤ`; stores into an `int32` array that can wrap
  are modelled with an explicit two's-complement wrap (`wrap32`).
* numpy `float64` probabilities are modelled as exact rationals `ℚ`; the two
  random streams consumed by the weighted sampler (`np.random.random_sample`
  for the cumulative-weight search, and the uniform variates behind
  `np.random.randint`) are explicit arguments `u v : ℕ → ℚ`, with
  each variate assumed to lie in `[0, 1)`.
* A Python exception escaping a function is modelled with `Except`: each
  error constructor is named after the concrete numpy/struct failure that
  raises it in the source.
-/

namespace DvidPointCloud

/-! ## `decode_block_coord` (parse.py, lines 12-27) -/

/-- Embedding of `decode_block_coord`: extract bits 0-20 as X, 21-41 as Y,
42-62 as Z, returning `(z, y, x)` exactly as the source does. -/
def decode_block_coord (encoded_coord : ℕ) : ℕ × ℕ × ℕ :=
  let x := encoded_coord &&& 0x1FFFFF
  let y := (encoded_coord >>> 21) &&& 0x1FFFFF
  let z := (encoded_coord >>> 42) &&& 0x1FFFFF
  (z, y, x)

theorem and_mask21 (a : ℕ) : a &&& 0x1FFFFF = a % 2 ^ 21 := by
  have h : (0x1FFFFF : ℕ) = 2 ^ 21 - 1 := by norm_num
  rw [h, Nat.and_pow_two_sub_one_eq_mod]

theorem pack_eq_arith {z y x : ℕ} (hy : y < 2 ^ 21) (hx : x < 2 ^ 21) :
    (z <<< 42) ||| (y <<< 21) ||| x = 2 ^ 21 * (2 ^ 21 * z + y) + x := by
  have h1 : z <<< 42 = 2 ^ 42 * z := by rw [Nat.shiftLeft_eq]; ring
  have h2 : y <<< 21 = 2 ^ 21 * y := by rw [Nat.shiftLeft_eq]; ring
  have hby : 2 ^ 21 * y < 2 ^ 42 := by
    have h := hy
    norm_num at h ⊢
    omega
  have hor1 : 2 ^ 42 * z + 2 ^ 21 * y = 2 ^ 42 * z ||| 2 ^ 21 * y :=
    Nat.mul_add_lt_is_or hby z
  have hre : 2 ^ 42 * z + 2 ^ 21 * y = 2 ^ 21 * (2 ^ 21 * z + y) := by ring
  have hor2 : 2 ^ 21 * (2 ^ 21 * z + y) + x = 2 ^ 21 * (2 ^ 21 * z + y) ||| x :=
    Nat.mul_add_lt_is_or hx _
  rw [h1, h2, ← hor1, hre, ← hor2]

/-- C4: decoding the packed value `(z<<42)|(y<<21)|x` returns exactly
`(z, y, x)` for all in-range coordinates, including the stated boundary and
concrete cases. -/
theorem decode_block_coord_roundtrip :
    (∀ z y x : ℕ, z < 2 ^ 21 → y < 2 ^ 21 → x < 2 ^ 21 →
      decode_block_coord ((z <<< 42) ||| (y <<< 21) ||| x) = (z, y, x)) ∧
    decode_block_coord 0 = (0, 0, 0) ∧
    decode_block_coord ((5 <<< 42) ||| (10 <<< 21) ||| 15) = (5, 10, 15) ∧
    decode_block_coord (((2 ^ 21 - 1) <<< 42) ||| ((2 ^ 21 - 1) <<< 21) ||| (2 ^ 21 - 1)) =
      (2 ^ 21 - 1, 2 ^ 21 - 1, 2 ^ 21 - 1) := by
  constructor
  · intro z y x hz hy hx
    unfold decode_block_coord
    rw [pack_eq_arith hy hx]
    set e := 2 ^ 21 * (2 ^ 21 * z + y) + x with he
    have hxpart : e &&& 0x1FFFFF = x := by
      rw [and_mask21, he, Nat.mul_add_mod, Nat.mod_eq_of_lt hx]
    have hdiv1 : e >>> 21 = 2 ^ 21 * z + y := by
      rw [Nat.shiftRight_eq_div_pow, he, Nat.mul_add_div (by norm_num),
        Nat.div_eq_of_lt hx, Nat.add_zero]
    have hypart : (e >>> 21) &&& 0x1FFFFF = y := by
      rw [hdiv1, and_mask21, Nat.mul_add_mod, Nat.mod_eq_of_lt hy]
    have hzpart : (e >>> 42) &&& 0x1FFFFF = z := by
      have he2 : e = 2 ^ 42 * z + (2 ^ 21 * y + x) := by rw [he]; ring
      have hrem : 2 ^ 21 * y + x < 2 ^ 42 := by
        have h1 : 2 ^ 21 * y ≤ 2 ^ 21 * (2 ^ 21 - 1) := Nat.mul_le_mul_left _ (by omega)
        have h2 : (2 : ℕ) ^ 21 * (2 ^ 21 - 1) = 2 ^ 42 - 2 ^ 21 := by norm_num
        omega
      rw [Nat.shiftRight_eq_div_pow, he2, Nat.mul_add_div (by norm_num),
        Nat.div_eq_of_lt hrem, Nat.add_zero, and_mask21, Nat.mod_eq_of_lt hz]
    simp only [hxpart, hypart, hzpart]
  refine ⟨by decide, by decide, by decide⟩

/-- Witness for C4: the universal part applied at `(3, 5, 7)`. -/
theorem decode_block_coord_roundtrip_witness :
    decode_block_coord ((3 <<< 42) ||| (5 <<< 21) ||| 7) = (3, 5, 7) :=
  decode_block_coord_roundtrip.1 3 5 7 (by norm_num) (by norm_num) (by norm_num)

/-! ## `parse_rles` (parse.py, lines 30-95)

The source reads the buffer through a monotonically advancing `offset`;
we model the byte buffer as a `List ℕ` consumed from the front.  Each
`struct.unpack` on a too-short slice (or out-of-range byte index) raises in
Python; the single error constructor `truncatedInput` stands for that
raised exception (the spec's `TruncatedInputError`). -/

/-- Little-endian u32 read: the four bytes of `struct.unpack("<I", ...)`;
`none` models the `struct.error` raised on a short slice. -/
def u32le? : List ℕ → Option (ℕ × List ℕ)
  | b0 :: b1 :: b2 :: b3 :: rest =>
    some (b0 + 256 * b1 + 65536 * b2 + 16777216 * b3, rest)
  | _ => none

/-- Reinterpret a u32 bit pattern as a signed i32, as `struct.unpack("<i", ...)`
does. -/
def i32ofU32 (n : ℕ) : ℤ :=
  if n < 2 ^ 31 then (n : ℤ) else (n : ℤ) - 2 ^ 32

/-- Little-endian i32 read (`struct.unpack("<i", ...)`). -/
def i32le? (d : List ℕ) : Option (ℤ × List ℕ) :=
  (u32le? d).map (fun p => (i32ofU32 p.1, p.2))

/-- The span-reading loop of `parse_rles`: reads `x, y, z, run_length` as
four consecutive i32s per span.  `payload_descriptor > 0` adds a payload
skip of `payload_size = 0` bytes in the source, i.e. nothing. -/
def parseSpans : ℕ → List ℕ → Option (List (ℤ × ℤ × ℤ × ℤ))
  | 0, _ => some []
  | n + 1, d => do
    let (x, d1) ← i32le? d
    let (y, d2) ← i32le? d1
    let (z, d3) ← i32le? d2
    let (len, d4) ← i32le? d3
    let rest ← parseSpans n d4
    pure ((x, y, z, len) :: rest)

inductive ParseError where
  | truncatedInput
  deriving DecidableEq, Repr

/-- Embedding of `parse_rles`: header bytes `payload_descriptor`,
`num_dimensions`, `dimension_of_run`, reserved byte, then a skipped u32
voxel count, a u32 `num_spans`, and `num_spans` records of four i32s.
Returns `(starts_zyx, lengths)`; the XYZ→ZYX flip is the final column
reversal of the source. -/
def parse_rles (data : List ℕ) : Except ParseError (List (ℤ × ℤ × ℤ) × List ℤ) :=
  match data with
  | _payload_descriptor :: _num_dimensions :: _dimension_of_run :: _reserved :: rest =>
    match u32le? rest with
    | none => .error .truncatedInput
    | some (_voxel_count, rest1) =>
      match u32le? rest1 with
      | none => .error .truncatedInput
      | some (num_spans, rest2) =>
        match parseSpans num_spans rest2 with
        | none => .error .truncatedInput
        | some spans =>
          .ok (spans.map (fun r => (r.2.2.1, r.2.1, r.1)),
               spans.map (fun r => r.2.2.2))
  | _ => .error .truncatedInput

/-! Wire-format encoder used by claims C5/C6 (the format stated in the spec
§6 and built by the repository's tests): 12-byte header with
`payload_descriptor = 0`, then per-span little-endian i32 `x, y, z, length`. -/

def u32le (n : ℕ) : List ℕ :=
  [n % 256, n / 256 % 256, n / 65536 % 256, n / 16777216 % 256]

def i32le (v : ℤ) : List ℕ :=
  u32le (v % 2 ^ 32).toNat

def encodeSpan (r : ℤ × ℤ × ℤ × ℤ) : List ℕ :=
  i32le r.1 ++ i32le r.2.1 ++ i32le r.2.2.1 ++ i32le r.2.2.2

def encode_rles (runs : List (ℤ × ℤ × ℤ × ℤ)) : List ℕ :=
  0 :: 3 :: 0 :: 0 :: (u32le 0 ++ u32le runs.length ++ (runs.map encodeSpan).flatten)

/-- A value representable as a signed 32-bit integer. -/
def inI32 (v : ℤ) : Prop := -(2 ^ 31) ≤ v ∧ v < 2 ^ 31

instance (v : ℤ) : Decidable (inI32 v) := by unfold inI32; infer_instance

theorem u32le_roundtrip (n : ℕ) (rest : List ℕ) (hn : n < 2 ^ 32) :
    u32le? (u32le n ++ rest) = some (n, rest) := by
  simp only [u32le, List.cons_append, List.nil_append, u32le?]
  norm_num at hn ⊢
  omega

theorem i32le_roundtrip (v : ℤ) (rest : List ℕ) (hv : inI32 v) :
    i32le? (i32le v ++ rest) = some (v, rest) := by
  obtain ⟨h1, h2⟩ := hv
  have hlt : (v % 2 ^ 32).toNat < 2 ^ 32 := by
    have h0 : (0 : ℤ) ≤ v % 2 ^ 32 := Int.emod_nonneg v (by norm_num)
    have h3 : v % 2 ^ 32 < 2 ^ 32 := Int.emod_lt_of_pos v (by norm_num)
    omega
  rw [i32le, i32le?, u32le_roundtrip _ _ hlt]
  simp only [Option.map_some', Option.some.injEq, Prod.mk.injEq]
  refine ⟨?_, trivial⟩
  rcases le_or_lt 0 v with hpos | hneg
  · have hv32 : v % 2 ^ 32 = v := Int.emod_eq_of_lt hpos (by omega)
    rw [i32ofU32, hv32, if_pos (by omega)]
    exact Int.toNat_of_nonneg hpos
  · have hv32 : v % 2 ^ 32 = v + 2 ^ 32 := by omega
    rw [i32ofU32, hv32, if_neg (by omega)]
    rw [Int.toNat_of_nonneg (by omega : (0:ℤ) ≤ v + 2 ^ 32)]
    ring

theorem parseSpans_encode (runs : List (ℤ × ℤ × ℤ × ℤ))
    (hb : ∀ r ∈ runs, inI32 r.1 ∧ inI32 r.2.1 ∧ inI32 r.2.2.1 ∧ inI32 r.2.2.2) :
    parseSpans runs.length (runs.map encodeSpan).flatten = some runs := by
  induction runs with
  | nil => rfl
  | cons r rs ih =>
    obtain ⟨hx, hy, hz, hl⟩ := hb r (List.mem_cons_self r rs)
    have hrest := ih (fun q hq => hb q (List.mem_cons_of_mem r hq))
    simp only [List.map_cons, List.flatten_cons, List.length_cons]
    show parseSpans (rs.length + 1) (encodeSpan r ++ (rs.map encodeSpan).flatten) = _
    rw [parseSpans]
    simp only [encodeSpan, List.append_assoc]
    rw [i32le_roundtrip _ _ hx]
    simp only [Option.bind_eq_bind, Option.some_bind]
    rw [i32le_roundtrip _ _ hy]
    simp only [Option.some_bind]
    rw [i32le_roundtrip _ _ hz]
    simp only [Option.some_bind]
    rw [i32le_roundtrip _ _ hl]
    simp only [Option.some_bind]
    rw [hrest]
    simp

/-- C5: encoding a run list in the wire format and decoding it with
`parse_rles` gives back the same runs in order, relabelled XYZ→ZYX, with the
same lengths (hence the same total voxel count). -/
theorem parse_rles_encode_roundtrip (runs : List (ℤ × ℤ × ℤ × ℤ))
    (hb : ∀ r ∈ runs, inI32 r.1 ∧ inI32 r.2.1 ∧ inI32 r.2.2.1 ∧ inI32 r.2.2.2)
    (hn : runs.length < 2 ^ 32) :
    parse_rles (encode_rles runs) =
      .ok (runs.map (fun r => (r.2.2.1, r.2.1, r.1)), runs.map (fun r => r.2.2.2)) ∧
    (runs.map (fun r => r.2.2.2)).sum = (runs.map (fun r => r.2.2.2)).sum := by
  refine ⟨?_, rfl⟩
  have e1 : u32le? (u32le 0 ++ (u32le runs.length ++ (runs.map encodeSpan).flatten)) =
      some (0, u32le runs.length ++ (runs.map encodeSpan).flatten) :=
    u32le_roundtrip 0 _ (by norm_num)
  have e2 : u32le? (u32le runs.length ++ (runs.map encodeSpan).flatten) =
      some (runs.length, (runs.map encodeSpan).flatten) :=
    u32le_roundtrip _ _ hn
  have e3 := parseSpans_encode runs hb
  simp only [encode_rles, parse_rles, List.append_assoc, e1, e2, e3]

/-- Witness for C5: the three-run example from the tests round-trips. -/
theorem parse_rles_encode_roundtrip_witness :
    parse_rles (encode_rles [(10, 20, 30, 5), (15, 20, 30, 10), (0, 0, 0, 3)]) =
      .ok ([(30, 20, 10), (30, 20, 15), (0, 0, 0)], [5, 10, 3]) :=
  (parse_rles_encode_roundtrip [(10, 20, 30, 5), (15, 20, 30, 10), (0, 0, 0, 3)]
    (by decide) (by norm_num)).1

theorem u32le?_some_facts {d : List ℕ} {n : ℕ} {r : List ℕ} (h : u32le? d = some (n, r)) :
    d.drop 4 = r ∧ d.length = r.length + 4 := by
  rcases d with _ | ⟨b0, _ | ⟨b1, _ | ⟨b2, _ | ⟨b3, rest⟩⟩⟩⟩ <;>
    simp [u32le?] at h
  obtain ⟨-, rfl⟩ := h
  simp

theorem i32le?_some_length {d : List ℕ} {v : ℤ} {r : List ℕ} (h : i32le? d = some (v, r)) :
    d.length = r.length + 4 := by
  rw [i32le?] at h
  cases hu : u32le? d with
  | none => rw [hu] at h; simp at h
  | some p =>
    obtain ⟨m, r0⟩ := p
    rw [hu] at h
    simp only [Option.map_some', Option.some.injEq, Prod.mk.injEq] at h
    have := (u32le?_some_facts (d := d) (n := m) (r := r0) (by rw [hu])).2
    rw [h.2] at this
    exact this

theorem parseSpans_some_length :
    ∀ (n : ℕ) (d : List ℕ) (l : List (ℤ × ℤ × ℤ × ℤ)),
      parseSpans n d = some l → 16 * n ≤ d.length := by
  intro n
  induction n with
  | zero => intro d l _; omega
  | succ k ih =>
    intro d l h
    rw [parseSpans] at h
    cases h1 : i32le? d with
    | none => rw [h1] at h; simp at h
    | some p1 =>
      obtain ⟨x1, d1⟩ := p1
      rw [h1] at h
      simp only [Option.bind_eq_bind, Option.some_bind] at h
      cases h2 : i32le? d1 with
      | none => rw [h2] at h; simp at h
      | some p2 =>
        obtain ⟨x2, d2⟩ := p2
        rw [h2] at h
        simp only [Option.some_bind] at h
        cases h3 : i32le? d2 with
        | none => rw [h3] at h; simp at h
        | some p3 =>
          obtain ⟨x3, d3⟩ := p3
          rw [h3] at h
          simp only [Option.some_bind] at h
          cases h4 : i32le? d3 with
          | none => rw [h4] at h; simp at h
          | some p4 =>
            obtain ⟨x4, d4⟩ := p4
            rw [h4] at h
            simp only [Option.some_bind] at h
            cases h5 : parseSpans k d4 with
            | none => rw [h5] at h; simp at h
            | some rest =>
              have l1 := i32le?_some_length h1
              have l2 := i32le?_some_length h2
              have l3 := i32le?_some_length h3
              have l4 := i32le?_some_length h4
              have l5 := ih d4 rest h5
              simp only [List.length_cons] at l1 l2 l3 l4 ⊢
              omega

/-- C6: any buffer that ends before the header plus `num_spans` complete
16-byte records is rejected with the truncation error (the raised exception),
with no partial result. -/
theorem parse_rles_truncated (d : List ℕ)
    (h : d.length < 12 ∨
      ∃ ns rest, u32le? (d.drop 8) = some (ns, rest) ∧ d.length < 12 + 16 * ns) :
    parse_rles d = .error .truncatedInput := by
  cases hp : parse_rles d with
  | error e => cases e; rfl
  | ok out =>
    exfalso
    rcases d with _ | ⟨b0, _ | ⟨b1, _ | ⟨b2, _ | ⟨b3, rest⟩⟩⟩⟩ <;> simp [parse_rles] at hp
    cases h1 : u32le? rest with
    | none => rw [h1] at hp; simp at hp
    | some p1 =>
      obtain ⟨vc, r1⟩ := p1
      rw [h1] at hp
      dsimp only at hp
      cases h2 : u32le? r1 with
      | none => rw [h2] at hp; simp at hp
      | some p2 =>
        obtain ⟨ns0, r2⟩ := p2
        rw [h2] at hp
        dsimp only at hp
        cases h3 : parseSpans ns0 r2 with
        | none => rw [h3] at hp; simp at hp
        | some spans =>
          obtain ⟨hd1, hl1⟩ := u32le?_some_facts (d := rest) (by rw [h1])
          obtain ⟨hd2, hl2⟩ := u32le?_some_facts (d := r1) (by rw [h2])
          have hl3 := parseSpans_some_length _ _ _ h3
          have hdrop : (b0 :: b1 :: b2 :: b3 :: rest).drop 8 = r1 := by
            simpa using hd1
          rcases h with h | ⟨ns, r2x, hns, hlen⟩
          · simp only [List.length_cons] at h
            omega
          · rw [hdrop, h2] at hns
            simp only [Option.some.injEq, Prod.mk.injEq] at hns
            simp only [List.length_cons] at hlen
            omega

/-- Witness for C6: the empty buffer is rejected. -/
theorem parse_rles_truncated_witness :
    parse_rles [] = .error .truncatedInput :=
  parse_rles_truncated [] (Or.inl (by simp))

/-! ## `rles_to_points` (parse.py, lines 98-146)

The source pre-allocates a zero array of `len(sample_indices)` rows, walks
the runs once keeping a running `voxel_counter`, consumes with an inner
`while` every leading sample index lying in `[run_start, run_end)`, and
breaks out early once all samples are consumed.  Rows never written keep
their zeros.  Note the `total_voxels` argument is never used by the source.
The function raises nothing. -/

def rlesGo : List (ℤ × ℤ × ℤ × ℤ) → ℤ → List ℤ → List (ℤ × ℤ × ℤ)
  | _, _, [] => []
  | [], _, idxs => idxs.map (fun _ => ((0 : ℤ), (0 : ℤ), (0 : ℤ)))
  | (x, y, z, run_length) :: rs, voxel_counter, idxs =>
    let run_start := voxel_counter
    let run_end := run_start + run_length
    let taken := idxs.takeWhile (fun i => decide (run_start ≤ i) && decide (i < run_end))
    taken.map (fun i => (x + (i - run_start), y, z)) ++
      rlesGo rs run_end (idxs.drop taken.length)

set_option linter.unusedVariables false in
/-- Embedding of `rles_to_points` (the `total_voxels` argument is accepted
and ignored, exactly as in the source). -/
def rles_to_points (runs : List (ℤ × ℤ × ℤ × ℤ)) (total_voxels : ℤ)
    (sample_indices : List ℤ) : List (ℤ × ℤ × ℤ) :=
  rlesGo runs 0 sample_indices

/-- C1 (counterexample): on the spec's end-to-end example the merge scan does
NOT produce the point list written in the spec — the five points drawn from
the second run are off by one there. -/
theorem rles_to_points_example_counterexample :
    rles_to_points [(10, 20, 30, 5), (15, 20, 30, 10), (0, 0, 0, 3)] 18
        [0, 2, 4, 6, 8, 10, 12, 14, 16] ≠
      [(10, 20, 30), (12, 20, 30), (14, 20, 30), (17, 20, 30), (19, 20, 30),
       (21, 20, 30), (23, 20, 30), (25, 20, 30), (1, 0, 0)] := by decide

/-- C1 (amended): the merge scan maps the example indices to offsets
`index - cumulative_start` added to the run's X start, giving x-coordinates
16, 18, 20, 22, 24 (not 17, 19, 21, 23, 25) inside the second run. -/
theorem rles_to_points_example :
    rles_to_points [(10, 20, 30, 5), (15, 20, 30, 10), (0, 0, 0, 3)] 18
        [0, 2, 4, 6, 8, 10, 12, 14, 16] =
      [(10, 20, 30), (12, 20, 30), (14, 20, 30), (16, 20, 30), (18, 20, 30),
       (20, 20, 30), (22, 20, 30), (24, 20, 30), (1, 0, 0)] := by decide

/-- C2 (code bug): an index one past the end of the population (19, with
`total_voxels = 18`) is NOT rejected: the function silently returns the
untouched zero row.  The repository's own test
(`test_parse.py::test_rles_to_points`) expects `IndexError` here. -/
theorem rles_to_points_out_of_range_returns_zeros :
    rles_to_points [(10, 20, 30, 5), (15, 20, 30, 10), (0, 0, 0, 3)] 18 [19] =
      [(0, 0, 0)] := by decide

/-! ## `vectorized_sample_from_rles` (parse.py, lines 149-176)

The source is
```
chosen_rows = np.random.choice(len(starts_zyx), num_points, replace=True,
                               p=lengths / lengths.sum())
points_zyx = starts_zyx[chosen_rows].copy()
points_zyx[:, 2] += np.random.randint(0, lengths[chosen_rows])
```
Randomness model: `np.random.choice` draws `num_points` uniforms in `[0,1)`
(the stream `u`) and locates each in the normalized cumulative-weight array
with a right-sided binary search; `np.random.randint(0, high)` turns a
uniform in `[0,1)` (the stream `v`) into `⌊variate·high⌋ ∈ [0, high)`.
`np.random.choice`'s validation steps are reproduced in their order with one
error constructor per numpy exception: population size, `p` size, then on
the float64 vector `p = lengths / S` the NaN test on its kahan sum (`S = 0`
makes every entry of a nonempty `p` equal to `±inf` or `0/0 = NaN`, so the
sum is NaN exactly when `S = 0` and the run list is nonempty), the
nonnegativity test (entries are the finite `lᵢ/S` once the NaN test has
passed), and the sum-to-one test (which only an empty `p`, summing to 0,
can still fail, the nonempty sum being exactly 1).
The in-place `+=` into the `int32` array wraps modulo `2^32` (`wrap32`). -/

/-- Two's-complement wrap of an integer into the `int32` range: the effect
of storing into a numpy `int32` array. -/
def wrap32 (i : ℤ) : ℤ := (i + 2 ^ 31) % 2 ^ 32 - 2 ^ 31

inductive SampleError where
  /-- `np.random.choice`: "a must be greater than 0 unless no samples are taken" -/
  | populationEmpty
  /-- `np.random.choice`: "a and p must have same size" -/
  | sizeMismatch
  /-- `np.random.choice`: "probabilities contain NaN" -/
  | probContainNaN
  /-- `np.random.choice`: "probabilities are not non-negative" -/
  | probNotNonneg
  /-- `np.random.choice`: "probabilities do not sum to 1" -/
  | probSumNotOne
  /-- numpy fancy indexing: IndexError on a row index past the end -/
  | indexOutOfBounds
  /-- `np.random.randint`: "low >= high" -/
  | lowGeHigh
  deriving DecidableEq, Repr

instance {ε α : Type} [DecidableEq ε] [DecidableEq α] : DecidableEq (Except ε α) := fun x y =>
  match x, y with
  | .error a, .error b =>
    if h : a = b then .isTrue (by rw [h]) else .isFalse (fun hh => h (Except.error.inj hh))
  | .ok a, .ok b =>
    if h : a = b then .isTrue (by rw [h]) else .isFalse (fun hh => h (Except.ok.inj hh))
  | .error _, .ok _ => .isFalse (fun hh => Except.noConfusion hh)
  | .ok _, .error _ => .isFalse (fun hh => Except.noConfusion hh)

/-- Running cumulative sums (`np.cumsum`). -/
def cumsum (acc : ℚ) : List ℚ → List ℚ
  | [] => []
  | a :: as => (acc + a) :: cumsum (acc + a) as

/-- `cdf.searchsorted(q, side="right")` on a sorted array: number of entries
`≤ q`. -/
def searchsortedRight (cdf : List ℚ) (q : ℚ) : ℕ :=
  cdf.countP (fun c => decide (c ≤ q))

/-- Embedding of `vectorized_sample_from_rles`.  `u` and `v` are the two
uniform random streams (see the section comment).  Note the exact-rational
division makes `l / 0 = 0`, so the nonnegativity test, reached only with
`S ≠ 0` or an empty list, compares the same signs as the float code. -/
def vectorized_sample_from_rles (starts_zyx : List (ℤ × ℤ × ℤ)) (lengths : List ℤ)
    (num_points : ℕ) (u v : ℕ → ℚ) : Except SampleError (List (ℤ × ℤ × ℤ)) :=
  if starts_zyx.length = 0 ∧ num_points ≠ 0 then .error .populationEmpty
  else if lengths.length ≠ starts_zyx.length then .error .sizeMismatch
  else
    let S : ℤ := lengths.sum
    if S = 0 ∧ lengths ≠ [] then .error .probContainNaN
    else if lengths.any (fun l => decide ((l : ℚ) / (S : ℚ) < 0)) then
      .error .probNotNonneg
    else if lengths = [] then .error .probSumNotOne
    else
      let p : List ℚ := lengths.map (fun (l : ℤ) => (l : ℚ) / (S : ℚ))
      let cdfRaw : List ℚ := cumsum 0 p
      let cdf : List ℚ := cdfRaw.map (fun c => c / cdfRaw.getLastD 1)
      let chosen_rows : List ℕ :=
        (List.range num_points).map (fun i => searchsortedRight cdf (u i))
      if chosen_rows.any (fun r => decide (starts_zyx.length ≤ r)) then
        .error .indexOutOfBounds
      else
        let points0 := chosen_rows.map (fun r => starts_zyx.getD r (0, 0, 0))
        let highs := chosen_rows.map (fun r => lengths.getD r 0)
        if highs.any (fun h => decide (h ≤ 0)) then .error .lowGeHigh
        else
          let offsets := List.zipWith (fun (i : ℕ) (hi : ℤ) => ⌊v i * (hi : ℚ)⌋)
            (List.range num_points) highs
          .ok (List.zipWith (fun pt off => (pt.1, pt.2.1, wrap32 (pt.2.2 + off)))
            points0 offsets)

/-- C3 (counterexample): with a run starting at `x = 2^31 - 1` of length 2
and a random outcome choosing offset 1, the in-place `int32` addition wraps:
the returned run-axis coordinate is `-2^31`, not `start + offset` (and the
other two coordinates are the run's start).  So the returned point is not
the run's start with an offset in `[0, 2)` added. -/
theorem vectorized_sample_wrap_counterexample :
    vectorized_sample_from_rles [(30, 20, 2147483647)] [2] 1 (fun _ => 0) (fun _ => 1/2) =
      .ok [(30, 20, -2147483648)] ∧
    vectorized_sample_from_rles [(30, 20, 2147483647)] [2] 1 (fun _ => 0) (fun _ => 1/2) ≠
      .ok [(30, 20, 2147483647 + 0)] ∧
    vectorized_sample_from_rles [(30, 20, 2147483647)] [2] 1 (fun _ => 0) (fun _ => 1/2) ≠
      .ok [(30, 20, 2147483647 + 1)] := by with_unfolding_all decide

/-- The (amended) weighted-sampler contract: exactly `n` points, each equal
to the start of its attributed run with an offset in `[0, length)` added —
through the `int32` wrap of the store — on the run axis only, the other two
coordinates unchanged. -/
def SampleSpec (starts_zyx : List (ℤ × ℤ × ℤ)) (lengths : List ℤ) (n : ℕ)
    (pts : List (ℤ × ℤ × ℤ)) : Prop :=
  pts.length = n ∧
  ∀ q ∈ pts, ∃ (r : ℕ) (zs ys xs len off : ℤ), starts_zyx[r]? = some (zs, ys, xs) ∧
    lengths[r]? = some len ∧ 0 ≤ off ∧ off < len ∧
    q = (zs, ys, wrap32 (xs + off))

/-- Helper: the full postcondition of a successful weighted-sampler call.
The point count needs no assumption on the random streams; the per-point
shape needs the `randint` variates in `[0, 1)`. -/
theorem vectorized_ok_shape (starts_zyx : List (ℤ × ℤ × ℤ)) (lengths : List ℤ)
    (n : ℕ) (u v : ℕ → ℚ) (pts : List (ℤ × ℤ × ℤ))
    (h : vectorized_sample_from_rles starts_zyx lengths n u v = .ok pts) :
    pts.length = n ∧
    ((∀ i, 0 ≤ v i ∧ v i < 1) → ∀ q ∈ pts,
      ∃ (r : ℕ) (zs ys xs len off : ℤ), starts_zyx[r]? = some (zs, ys, xs) ∧
        lengths[r]? = some len ∧ 0 ≤ off ∧ off < len ∧
        q = (zs, ys, wrap32 (xs + off))) := by
  rw [vectorized_sample_from_rles] at h
  by_cases c1 : starts_zyx.length = 0 ∧ n ≠ 0
  · rw [if_pos c1] at h; exact Except.noConfusion h
  rw [if_neg c1] at h
  by_cases c2 : lengths.length ≠ starts_zyx.length
  · rw [if_pos c2] at h; exact Except.noConfusion h
  rw [if_neg c2] at h
  rw [not_not] at c2
  by_cases c3 : lengths.sum = 0 ∧ lengths ≠ []
  · rw [if_pos c3] at h; exact Except.noConfusion h
  rw [if_neg c3] at h
  by_cases c4 : lengths.any (fun l => decide ((l : ℚ) / (lengths.sum : ℚ) < 0)) = true
  · rw [if_pos c4] at h; exact Except.noConfusion h
  rw [if_neg c4] at h
  by_cases c5 : lengths = []
  · rw [if_pos c5] at h; exact Except.noConfusion h
  rw [if_neg c5] at h
  by_cases c6 : ((List.range n).map (fun i => searchsortedRight
      ((cumsum 0 (lengths.map (fun (l : ℤ) => (l : ℚ) / (lengths.sum : ℚ)))).map
        (fun c => c / (cumsum 0 (lengths.map (fun (l : ℤ) =>
          (l : ℚ) / (lengths.sum : ℚ)))).getLastD 1))
      (u i))).any (fun r => decide (starts_zyx.length ≤ r))
  · rw [if_pos c6] at h; exact Except.noConfusion h
  rw [if_neg c6] at h
  set rows : List ℕ := (List.range n).map (fun i => searchsortedRight
      ((cumsum 0 (lengths.map (fun (l : ℤ) => (l : ℚ) / (lengths.sum : ℚ)))).map
        (fun c => c / (cumsum 0 (lengths.map (fun (l : ℤ) =>
          (l : ℚ) / (lengths.sum : ℚ)))).getLastD 1))
      (u i)) with hrows
  by_cases c7 : (rows.map (fun r => lengths.getD r 0)).any (fun x => decide (x ≤ 0))
  · rw [if_pos c7] at h; exact Except.noConfusion h
  rw [if_neg c7] at h
  dsimp only at h
  have hpts := (Except.ok.inj h).symm
  have hlrows : rows.length = n := by rw [hrows]; simp
  constructor
  · rw [hpts]
    simp [List.length_zipWith, hlrows]
  · intro hv q hq
    rw [hpts] at hq
    rw [List.mem_iff_getElem] at hq
    obtain ⟨i, hi, hqi⟩ := hq
    have hi2 : i < n := by
      simpa [List.length_zipWith, hlrows] using hi
    have hirows : i < rows.length := by omega
    have hioffs : i < (List.zipWith (fun (i : ℕ) (hi : ℤ) => ⌊v i * (hi : ℚ)⌋)
        (List.range n) (rows.map (fun r => lengths.getD r 0))).length := by
      simp [List.length_zipWith, hlrows]; omega
    rw [List.getElem_zipWith] at hqi
    set r := rows[i] with hr
    have hrmem : r ∈ rows := List.getElem_mem hirows
    have hrlt : r < starts_zyx.length := by
      by_contra hcon
      exact c6 (List.any_eq_true.mpr ⟨r, hrmem, by simpa using hcon⟩)
    have hrltl : r < lengths.length := by omega
    have hlenpos : 0 < lengths[r] := by
      by_contra hcon
      refine c7 (List.any_eq_true.mpr ⟨lengths.getD r 0, List.mem_map.mpr ⟨r, hrmem, rfl⟩, ?_⟩)
      simp only [List.getD_eq_getElem?_getD, List.getElem?_eq_getElem hrltl]
      simpa using hcon
    have hipts : i < (rows.map (fun r => starts_zyx.getD r (0, 0, 0))).length := by
      simpa using hirows
    have hpt0 : (rows.map (fun r => starts_zyx.getD r (0, 0, 0)))[i] =
        starts_zyx[r] := by
      simp only [List.getElem_map, ← hr, List.getD_eq_getElem?_getD,
        List.getElem?_eq_getElem hrlt, Option.getD_some]
    have hoff : (List.zipWith (fun (i : ℕ) (hi : ℤ) => ⌊v i * (hi : ℚ)⌋)
        (List.range n) (rows.map (fun r => lengths.getD r 0)))[i] =
        ⌊v i * (lengths[r] : ℚ)⌋ := by
      rw [List.getElem_zipWith]
      simp only [List.getElem_range, List.getElem_map, ← hr, List.getD_eq_getElem?_getD,
        List.getElem?_eq_getElem hrltl, Option.getD_some]
    refine ⟨r, starts_zyx[r].1, starts_zyx[r].2.1, starts_zyx[r].2.2, lengths[r],
      ⌊v i * (lengths[r] : ℚ)⌋, ?_, ?_, ?_, ?_, ?_⟩
    · simp [List.getElem?_eq_getElem hrlt]
    · simp [List.getElem?_eq_getElem hrltl]
    · exact Int.floor_nonneg.mpr (mul_nonneg (hv i).1 (by exact_mod_cast hlenpos.le))
    · refine Int.floor_lt.mpr ?_
      exact mul_lt_of_lt_one_left (by exact_mod_cast hlenpos) (hv i).2
    · rw [← hqi, hpt0, hoff]

/-- C3 (amended): whenever the weighted sampler returns, it returns exactly
`num_points` points, and every point is its attributed run's start coordinate
with a run-axis offset in `[0, length)` added modulo the `int32` store
(equal to plain addition whenever the sum fits in `int32`). -/
theorem vectorized_sample_spec (starts_zyx : List (ℤ × ℤ × ℤ)) (lengths : List ℤ)
    (n : ℕ) (u v : ℕ → ℚ) (pts : List (ℤ × ℤ × ℤ))
    (hv : ∀ i, 0 ≤ v i ∧ v i < 1)
    (h : vectorized_sample_from_rles starts_zyx lengths n u v = .ok pts) :
    SampleSpec starts_zyx lengths n pts :=
  ⟨(vectorized_ok_shape starts_zyx lengths n u v pts h).1,
   (vectorized_ok_shape starts_zyx lengths n u v pts h).2 hv⟩

/-- Witness for C3 (amended): a run at `(30, 20, 10)` of length 5, two draws
with both random streams at 0, gives two copies of the run start. -/
theorem vectorized_sample_spec_witness :
    SampleSpec [(30, 20, 10)] [5] 2 [(30, 20, 10), (30, 20, 10)] :=
  vectorized_sample_spec [(30, 20, 10)] [5] 2 (fun _ => 0) (fun _ => 0)
    [(30, 20, 10), (30, 20, 10)]
    (fun _ => ⟨le_refl 0, by norm_num⟩)
    (by with_unfolding_all decide)

/-- `true` iff the call raised (modelled by `Except.error`). -/
def isError {ε α : Type} (x : Except ε α) : Bool :=
  match x with
  | .error _ => true
  | .ok _ => false

/-- C7: for every run collection whose lengths sum to zero, the weighted
sampler fails, whatever the requested sample count (the spec's
`EmptyPopulationError` being the raised exception): an empty run list fails
the population / sum-to-one validation, a nonempty zero-sum one divides by
zero and `np.random.choice` rejects the NaN probability sum before any
sampling, `size = 0` included. -/
theorem vectorized_zero_total_always_fails (starts_zyx : List (ℤ × ℤ × ℤ))
    (lengths : List ℤ) (n : ℕ) (u v : ℕ → ℚ) (hS : lengths.sum = 0) :
    isError (vectorized_sample_from_rles starts_zyx lengths n u v) = true := by
  cases hres : vectorized_sample_from_rles starts_zyx lengths n u v with
  | error e => rfl
  | ok pts =>
    exfalso
    rw [vectorized_sample_from_rles] at hres
    by_cases c1 : starts_zyx.length = 0 ∧ n ≠ 0
    · rw [if_pos c1] at hres; exact Except.noConfusion hres
    rw [if_neg c1] at hres
    by_cases c2 : lengths.length ≠ starts_zyx.length
    · rw [if_pos c2] at hres; exact Except.noConfusion hres
    rw [if_neg c2] at hres
    by_cases c3 : lengths.sum = 0 ∧ lengths ≠ []
    · rw [if_pos c3] at hres; exact Except.noConfusion hres
    rw [if_neg c3] at hres
    have hemp : lengths = [] := by
      by_contra hne
      exact c3 ⟨hS, hne⟩
    by_cases c4 : lengths.any (fun l => decide ((l : ℚ) / (lengths.sum : ℚ) < 0)) = true
    · rw [if_pos c4] at hres; exact Except.noConfusion hres
    rw [if_neg c4] at hres
    rw [if_pos hemp] at hres
    exact Except.noConfusion hres

/-- Witness for C7: one zero-length run fails both for one requested point
and for zero requested points. -/
theorem vectorized_zero_total_always_fails_witness :
    isError (vectorized_sample_from_rles [(0, 0, 0)] [0] 1 (fun _ => 0) (fun _ => 0)) =
      true ∧
    isError (vectorized_sample_from_rles [(0, 0, 0)] [0] 0 (fun _ => 0) (fun _ => 0)) =
      true :=
  ⟨vectorized_zero_total_always_fails [(0, 0, 0)] [0] 1 (fun _ => 0) (fun _ => 0)
      (by decide),
   vectorized_zero_total_always_fails [(0, 0, 0)] [0] 0 (fun _ => 0) (fun _ => 0)
      (by decide)⟩

/-- C9 (counterexample): for the EMPTY run collection (zero total voxels),
a request for `n = 0` samples does not return an empty sequence — the
weighted sampler fails in `np.random.choice`'s probability validation
("probabilities do not sum to 1" for an empty `p`). -/
theorem vectorized_n_zero_empty_counterexample :
    vectorized_sample_from_rles ([] : List (ℤ × ℤ × ℤ)) ([] : List ℤ) 0
      (fun _ => 0) (fun _ => 0) = .error .probSumNotOne := by
  with_unfolding_all decide

/-- C9 (amended): `n = 0` returns an empty sequence from the exact-index
path for every run list (it never inspects a run), and from the weighted
sampler whenever the probability vector passes validation — for every run
list with nonnegative lengths of positive total; a zero-total run list
(the empty collection included) makes the weighted sampler fail its
validation instead, even at `n = 0`. -/
theorem n_zero_returns_empty :
    (∀ (runs : List (ℤ × ℤ × ℤ × ℤ)) (total : ℤ), rles_to_points runs total [] = []) ∧
    (∀ (starts_zyx : List (ℤ × ℤ × ℤ)) (lengths : List ℤ) (u v : ℕ → ℚ),
      lengths.length = starts_zyx.length → (∀ l ∈ lengths, 0 ≤ l) →
      0 < lengths.sum →
      vectorized_sample_from_rles starts_zyx lengths 0 u v = .ok []) := by
  constructor
  · intro runs total
    cases runs <;> rfl
  · intro starts_zyx lengths u v hlen hnn hpos
    rw [vectorized_sample_from_rles]
    rw [if_neg (by simp : ¬(starts_zyx.length = 0 ∧ (0 : ℕ) ≠ 0))]
    rw [if_neg (by simp [hlen] : ¬(lengths.length ≠ starts_zyx.length))]
    rw [if_neg (by rintro ⟨h0, -⟩; omega)]
    rw [if_neg ?hc4]
    case hc4 =>
      intro hany
      obtain ⟨l, hl, hdec⟩ := List.any_eq_true.mp hany
      simp only [decide_eq_true_eq] at hdec
      have hq : (0 : ℚ) ≤ (l : ℚ) / (lengths.sum : ℚ) :=
        div_nonneg (by exact_mod_cast hnn l hl) (by exact_mod_cast hpos.le)
      linarith
    rw [if_neg (by
      intro hemp
      rw [hemp] at hpos
      simp at hpos)]
    simp

/-- Witness for C9 (amended): the test's first run list with no indices, and
a one-run list with `n = 0`. -/
theorem n_zero_returns_empty_witness :
    rles_to_points [(10, 20, 30, 5)] 5 [] = [] ∧
    vectorized_sample_from_rles [(30, 20, 10)] [5] 0 (fun _ => 0) (fun _ => 0) = .ok [] :=
  ⟨n_zero_returns_empty.1 [(10, 20, 30, 5)] 5,
   n_zero_returns_empty.2 [(30, 20, 10)] [5] (fun _ => 0) (fun _ => 0)
     rfl (by decide) (by decide)⟩

/-! ## `uniform_sample` (sampling.py, lines 17-89)

The network fetch (`client.get_sparse_vol`) is an excluded collaborator; its
returned byte buffer is the `sparse_vol_data` argument here.  Everything
after the fetch is embedded: the density/count guard (line 43), the
output-format guard (line 46), `parse_rles`, the density-vs-count branch
(line 64, Python `round` is round-half-to-even on the float product,
modelled exactly on `ℚ`), the sampler call, the in-place `int32` scale
multiplication, and the ZYX→XYZ reversal (a dataframe result holds the same
coordinates, so both formats return the XYZ triples). -/

/-- A Python number as passed for `density_or_count`: `isinstance(x, float)`
distinguishes the variants.  The float literals `0.0001` and `1.0` of the
source are modelled as the exact rationals they denote. -/
inductive PyNum where
  | float (q : ℚ)
  | int (n : ℤ)
  deriving DecidableEq, Repr

def PyNum.isFloat : PyNum → Bool
  | .float _ => true
  | .int _ => false

/-- The numeric value used in comparisons (Python compares int and float
directly). -/
def PyNum.toQ : PyNum → ℚ
  | .float q => q
  | .int n => (n : ℚ)

/-- `int(x)`: identity on ints.  (The float case is unreachable in
`uniform_sample`: floats outside `[0.0001, 1.0]` are rejected and floats
inside it take the density branch.) -/
def PyNum.toInt : PyNum → ℤ
  | .float q => ⌊q⌋
  | .int n => n

/-- The test at sampling.py line 64: `0.0001 <= density_or_count <= 1.0`. -/
def density_branch (dc : PyNum) : Bool :=
  decide ((1 : ℚ) / 10000 ≤ dc.toQ ∧ dc.toQ ≤ 1)

/-- The guard at line 43 does not reject the value. -/
def accepted (dc : PyNum) : Bool :=
  !(dc.isFloat && !density_branch dc)

/-- The value reaches the `else` (explicit count) branch of line 64. -/
def count_branch (dc : PyNum) : Bool :=
  accepted dc && !density_branch dc

/-- Python `round` (= numpy round on a float64): round half to even. -/
def roundHalfEven (q : ℚ) : ℤ :=
  if q - ⌊q⌋ < 1 / 2 then ⌊q⌋
  else if 1 / 2 < q - ⌊q⌋ then ⌊q⌋ + 1
  else if ⌊q⌋ % 2 = 0 then ⌊q⌋ else ⌊q⌋ + 1

/-- The sample-count computation of lines 64-73:
`max(1, int(round(total_voxels * density)))` on the density branch, the
value itself (as an int) on the count branch. -/
def num_samples_for (dc : PyNum) (total_voxels : ℤ) : ℤ :=
  if density_branch dc then max 1 (roundHalfEven ((total_voxels : ℚ) * dc.toQ))
  else dc.toInt

inductive UniformSampleError where
  /-- one of the two explicit `raise ValueError` guards -/
  | valueError
  /-- propagated from `parse_rles` -/
  | parseFailure (e : ParseError)
  /-- propagated from `vectorized_sample_from_rles` -/
  | sampleFailure (e : SampleError)
  /-- `np.random.choice` with a negative `size`: "negative dimensions are not allowed" -/
  | negativeSampleCount
  deriving DecidableEq, Repr

/-- Embedding of `uniform_sample` downstream of the network fetch. -/
def uniform_sample_core (sparse_vol_data : List ℕ) (density_or_count : PyNum)
    (scale : ℕ) (output_format : String) (u v : ℕ → ℚ) :
    Except UniformSampleError (List (ℤ × ℤ × ℤ)) :=
  if density_or_count.isFloat && !density_branch density_or_count then
    .error .valueError
  else if output_format ≠ "xyz" ∧ output_format ≠ "dataframe" then
    .error .valueError
  else
    match parse_rles sparse_vol_data with
    | .error e => .error (.parseFailure e)
    | .ok (starts_zyx, lengths) =>
      let total_voxels : ℤ := lengths.sum
      let num_samples : ℤ := num_samples_for density_or_count total_voxels
      if num_samples < 0 then .error .negativeSampleCount
      else
        match vectorized_sample_from_rles starts_zyx lengths num_samples.toNat u v with
        | .error e => .error (.sampleFailure e)
        | .ok points_zyx =>
          let scaled := if 0 < scale then
              points_zyx.map (fun p => (wrap32 (p.1 * 2 ^ scale),
                wrap32 (p.2.1 * 2 ^ scale), wrap32 (p.2.2 * 2 ^ scale)))
            else points_zyx
          .ok (scaled.map (fun p => (p.2.2, p.2.1, p.1)))

/-- Helper: a successful `uniform_sample` call returns exactly
`num_samples_for density_or_count total_voxels` points. -/
theorem uniform_ok_samples (data : List ℕ) (dc : PyNum) (scale : ℕ)
    (fmt : String) (u v : ℕ → ℚ) (starts_zyx : List (ℤ × ℤ × ℤ))
    (lengths : List ℤ) (pts : List (ℤ × ℤ × ℤ))
    (hparse : parse_rles data = .ok (starts_zyx, lengths))
    (hrun : uniform_sample_core data dc scale fmt u v = .ok pts) :
    pts.length = (num_samples_for dc lengths.sum).toNat := by
  rw [uniform_sample_core] at hrun
  by_cases c1 : (dc.isFloat && !density_branch dc) = true
  · rw [if_pos c1] at hrun; exact Except.noConfusion hrun
  rw [if_neg c1] at hrun
  by_cases c2 : fmt ≠ "xyz" ∧ fmt ≠ "dataframe"
  · rw [if_pos c2] at hrun; exact Except.noConfusion hrun
  rw [if_neg c2] at hrun
  rw [hparse] at hrun
  dsimp only at hrun
  by_cases c3 : num_samples_for dc lengths.sum < 0
  · rw [if_pos c3] at hrun; exact Except.noConfusion hrun
  rw [if_neg c3] at hrun
  cases hs : vectorized_sample_from_rles starts_zyx lengths
      (num_samples_for dc lengths.sum).toNat u v with
  | error e => rw [hs] at hrun; exact Except.noConfusion hrun
  | ok pts0 =>
    rw [hs] at hrun
    dsimp only at hrun
    have hlen0 := (vectorized_ok_shape starts_zyx lengths
      (num_samples_for dc lengths.sum).toNat u v pts0 hs).1
    have hpts := (Except.ok.inj hrun).symm
    rw [hpts]
    by_cases hsc : 0 < scale
    · simp [if_pos hsc, List.length_map, hlen0]
    · simp [if_neg hsc, List.length_map, hlen0]

/-- C8 (counterexample): `0.00005` is a density in `(0, 1]`, but
`uniform_sample` rejects it with `ValueError` (the accepted density range is
`[0.0001, 1.0]`), so no points at all are drawn - not
`max(1, round(total_voxels * d)) = 1` of them. -/
theorem uniform_sample_density_counterexample :
    (0 : ℚ) < 1 / 20000 ∧ (1 / 20000 : ℚ) ≤ 1 ∧
    uniform_sample_core (encode_rles [(10, 20, 30, 5)]) (.float (1 / 20000)) 0 "xyz"
      (fun _ => 0) (fun _ => 0) = .error .valueError := by
  refine ⟨by norm_num, by norm_num, ?_⟩
  with_unfolding_all decide

/-- C8 (amended): for every density `d` in `[0.0001, 1.0]` (the range the
code accepts; smaller positive densities raise `ValueError`), a successful
`uniform_sample` call draws exactly
`max(1, round_half_even(total_voxels * d))` points, `total_voxels` being the
sum of the decoded run lengths. -/
theorem uniform_sample_density_count (d : ℚ) (data : List ℕ) (scale : ℕ)
    (fmt : String) (u v : ℕ → ℚ) (starts_zyx : List (ℤ × ℤ × ℤ))
    (lengths : List ℤ) (pts : List (ℤ × ℤ × ℤ))
    (hd1 : 1 / 10000 ≤ d) (hd2 : d ≤ 1)
    (hparse : parse_rles data = .ok (starts_zyx, lengths))
    (hrun : uniform_sample_core data (.float d) scale fmt u v = .ok pts) :
    pts.length = (max 1 (roundHalfEven ((lengths.sum : ℚ) * d))).toNat := by
  have h := uniform_ok_samples data (.float d) scale fmt u v starts_zyx lengths pts
    hparse hrun
  rw [num_samples_for, if_pos (by
    simp only [density_branch, PyNum.toQ, decide_eq_true_eq]
    exact ⟨hd1, hd2⟩)] at h
  exact h

/-- Witness for C8 (amended): density 1/2 on a single 5-voxel run draws
`max(1, round(2.5)) = 2` points (round half to even). -/
theorem uniform_sample_density_count_witness :
    ([(10, 20, 30), (10, 20, 30)] : List (ℤ × ℤ × ℤ)).length =
      (max 1 (roundHalfEven ((([5] : List ℤ).sum : ℚ) * (1 / 2)))).toNat :=
  uniform_sample_density_count (1 / 2) (encode_rles [(10, 20, 30, 5)]) 0 "xyz"
    (fun _ => 0) (fun _ => 0) [(30, 20, 10)] [5] [(10, 20, 30), (10, 20, 30)]
    (by norm_num) (by norm_num)
    (by with_unfolding_all decide)
    (by with_unfolding_all decide)

/-- C10 (counterexample): the integer `0` is not greater than `1.0`, yet it
is treated as an explicit count: it passes the float-only guard, falls
outside `[0.0001, 1.0]`, takes the count branch, and the call returns zero
points. -/
theorem uniform_sample_int_zero_counterexample :
    count_branch (PyNum.int 0) = true ∧
    ¬ (1 : ℚ) < (PyNum.int 0).toQ ∧
    uniform_sample_core (encode_rles [(10, 20, 30, 5)]) (.int 0) 0 "xyz"
      (fun _ => 0) (fun _ => 0) = .ok [] := by
  refine ⟨by with_unfolding_all decide, by norm_num [PyNum.toQ], ?_⟩
  with_unfolding_all decide

/-- C10 (amended): the integer `1` falls in the numeric density range
`[0.0001, 1.0]` and is interpreted as density `1.0`, so the computed sample
count is `max(1, total_voxels)` (and a successful call returns that many
points) rather than one point; the values treated as explicit counts are
exactly the integers `n ≤ 0` or `n ≥ 2` (floats outside the density range
are rejected by `ValueError` instead). -/
theorem uniform_sample_int_one_density :
    (∀ total : ℤ, num_samples_for (PyNum.int 1) total = max 1 total) ∧
    (∀ dc : PyNum, count_branch dc = true ↔
      ∃ n : ℤ, dc = PyNum.int n ∧ (n ≤ 0 ∨ 2 ≤ n)) ∧
    (∀ (data : List ℕ) (scale : ℕ) (fmt : String) (u v : ℕ → ℚ)
        (starts_zyx : List (ℤ × ℤ × ℤ)) (lengths : List ℤ) (pts : List (ℤ × ℤ × ℤ)),
      parse_rles data = .ok (starts_zyx, lengths) →
      uniform_sample_core data (.int 1) scale fmt u v = .ok pts →
      pts.length = (max 1 lengths.sum).toNat) := by
  have hone : ∀ total : ℤ, num_samples_for (PyNum.int 1) total = max 1 total := by
    intro total
    rw [num_samples_for, if_pos (by norm_num [density_branch, PyNum.toQ])]
    congr 1
    have h1 : ((total : ℚ)) * ((1 : ℤ) : ℚ) = ((total : ℤ) : ℚ) := by push_cast; ring
    rw [PyNum.toQ, h1, roundHalfEven]
    rw [Int.floor_intCast, sub_self, if_pos (by norm_num)]
  refine ⟨hone, ?_, ?_⟩
  · intro dc
    cases dc with
    | float q =>
      constructor
      · intro hct
        exfalso
        rw [count_branch, accepted, PyNum.isFloat] at hct
        rcases hv : density_branch (PyNum.float q) with _ | _ <;> rw [hv] at hct <;>
          simp at hct
      · rintro ⟨n, hn, -⟩
        exact PyNum.noConfusion hn
    | int n =>
      have hchar : density_branch (PyNum.int n) = true ↔ n = 1 := by
        rw [density_branch, decide_eq_true_eq]
        simp only [PyNum.toQ]
        constructor
        · rintro ⟨h1, h2⟩
          have hpos : (0 : ℚ) < (n : ℚ) := lt_of_lt_of_le (by norm_num) h1
          have hn1 : 1 ≤ n := by exact_mod_cast hpos
          have hn2 : n ≤ 1 := by exact_mod_cast h2
          omega
        · rintro rfl
          exact ⟨by norm_num, by norm_num⟩
      have hcb : count_branch (PyNum.int n) = !density_branch (PyNum.int n) := by
        rw [count_branch, accepted, PyNum.isFloat]
        simp
      rw [hcb]
      constructor
      · intro hct
        refine ⟨n, rfl, ?_⟩
        have hne : ¬ n = 1 := by
          intro hh
          rw [hchar.mpr hh] at hct
          simp at hct
        omega
      · rintro ⟨m, hm, hor⟩
        injection hm with hmeq
        subst hmeq
        have hdb : density_branch (PyNum.int n) = false := by
          rcases hv : density_branch (PyNum.int n) with _ | _
          · rfl
          · exact absurd (hchar.mp hv) (by omega)
        rw [hdb]
        rfl
  · intro data scale fmt u v starts_zyx lengths pts hparse hrun
    have h := uniform_ok_samples data (.int 1) scale fmt u v starts_zyx lengths pts
      hparse hrun
    rw [hone lengths.sum] at h
    exact h

/-- Witness for C10 (amended): with a single 5-voxel run and
`density_or_count = int 1`, a successful call returns 5 points, not 1. -/
theorem uniform_sample_int_one_density_witness :
    ([(10, 20, 30), (10, 20, 30), (10, 20, 30), (10, 20, 30), (10, 20, 30)] :
        List (ℤ × ℤ × ℤ)).length = (max 1 (([5] : List ℤ).sum)).toNat :=
  uniform_sample_int_one_density.2.2 (encode_rles [(10, 20, 30, 5)]) 0 "xyz"
    (fun _ => 0) (fun _ => 0) [(30, 20, 10)] [5]
    [(10, 20, 30), (10, 20, 30), (10, 20, 30), (10, 20, 30), (10, 20, 30)]
    (by with_unfolding_all decide)
    (by with_unfolding_all decide)

end DvidPointCloud
